import Mathlib

/-!
Verification of the MCP tool-server bridge (`src/mcp/manager.ts`,
`src/mcp/interactions.ts`) against its natural-language specification.

The TypeScript source is shallowly embedded: pure functions become Lean
functions, module-level mutable maps become explicit state values threaded
through step functions, promises are represented by attempt identifiers,
and thrown exceptions become `Except`.  Machine arithmetic used by the
SHA-256 hash in `makeMcpToolName` is modelled on `Nat` with explicit
`% 2^32` masking, exactly mirroring `node:crypto`'s SHA-256.
-/

/-! ### SHA-256 (embedding of node:crypto createHash("sha256"), as used by makeMcpToolName) -/

def M32 : Nat := 4294967296

def rotr32 (n x : Nat) : Nat :=
  ((x <<< (32 - n)) ||| (x >>> n)) % M32

def shaCh (x y z : Nat) : Nat := ((x &&& y) ^^^ ((x ^^^ 4294967295) &&& z)) % M32

def shaMaj (x y z : Nat) : Nat := ((x &&& y) ^^^ (x &&& z) ^^^ (y &&& z)) % M32

def bSig0 (x : Nat) : Nat := (rotr32 2 x ^^^ rotr32 13 x ^^^ rotr32 22 x) % M32

def bSig1 (x : Nat) : Nat := (rotr32 6 x ^^^ rotr32 11 x ^^^ rotr32 25 x) % M32

def sSig0 (x : Nat) : Nat := (rotr32 7 x ^^^ rotr32 18 x ^^^ (x >>> 3)) % M32

def sSig1 (x : Nat) : Nat := (rotr32 17 x ^^^ rotr32 19 x ^^^ (x >>> 10)) % M32

def shaK : List Nat :=
  [1116352408, 1899447441, 3049323471, 3921009573, 961987163, 1508970993,
   2453635748, 2870763221, 3624381080, 310598401, 607225278, 1426881987,
   1925078388, 2162078206, 2614888103, 3248222580, 3835390401, 4022224774,
   264347078, 604807628, 770255983, 1249150122, 1555081692, 1996064986,
   2554220882, 2821834349, 2952996808, 3210313671, 3336571891, 3584528711,
   113926993, 338241895, 666307205, 773529912, 1294757372, 1396182291,
   1695183700, 1986661051, 2177026350, 2456956037, 2730485921, 2820302411,
   3259730800, 3345764771, 3516065817, 3600352804, 4094571909, 275423344,
   430227734, 506948616, 659060556, 883997877, 958139571, 1322822218,
   1537002063, 1747873779, 1955562222, 2024104815, 2227730452, 2361852424,
   2428436474, 2756734187, 3204031479, 3329325298]

structure Sha256State where
  a : Nat
  b : Nat
  c : Nat
  d : Nat
  e : Nat
  f : Nat
  g : Nat
  h : Nat

def shaInit : Sha256State :=
  ⟨1779033703, 3144134277, 1013904242, 2773480762,
   1359893119, 2600822924, 528734635, 1541459225⟩

def beWord (b0 b1 b2 b3 : Nat) : Nat :=
  ((b0 <<< 24) ||| (b1 <<< 16) ||| (b2 <<< 8) ||| b3) % M32

def toWords : List Nat → List Nat
  | b0 :: b1 :: b2 :: b3 :: rest => beWord b0 b1 b2 b3 :: toWords rest
  | _ => []

def extendLoop : Nat → Array Nat → Array Nat
  | 0, w => w
  | n + 1, w =>
    let i := w.size
    let x := (sSig1 (w.getD (i - 2) 0) + w.getD (i - 7) 0 +
              sSig0 (w.getD (i - 15) 0) + w.getD (i - 16) 0) % M32
    extendLoop n (w.push x)

def schedule (block : List Nat) : List Nat :=
  (extendLoop 48 (toWords block).toArray).toList

def roundStep (st : Sha256State) (kw : Nat × Nat) : Sha256State :=
  let t1 := (st.h + bSig1 st.e + shaCh st.e st.f st.g + kw.1 + kw.2) % M32
  let t2 := (bSig0 st.a + shaMaj st.a st.b st.c) % M32
  ⟨(t1 + t2) % M32, st.a, st.b, st.c, (st.d + t1) % M32, st.e, st.f, st.g⟩

def compressBlock (st : Sha256State) (block : List Nat) : Sha256State :=
  let w := schedule block
  let r := (List.zip shaK w).foldl roundStep st
  ⟨(st.a + r.a) % M32, (st.b + r.b) % M32, (st.c + r.c) % M32,
   (st.d + r.d) % M32, (st.e + r.e) % M32, (st.f + r.f) % M32,
   (st.g + r.g) % M32, (st.h + r.h) % M32⟩

def be64 (n : Nat) : List Nat :=
  [(n >>> 56) % 256, (n >>> 48) % 256, (n >>> 40) % 256, (n >>> 32) % 256,
   (n >>> 24) % 256, (n >>> 16) % 256, (n >>> 8) % 256, n % 256]

def padMessage (msg : List Nat) : List Nat :=
  let len := msg.length
  let z := (119 - len % 64) % 64
  msg ++ [128] ++ List.replicate z 0 ++ be64 (len * 8)

def chunk64F : Nat → List Nat → List (List Nat)
  | 0, _ => []
  | fuel + 1, l => if l.isEmpty then [] else l.take 64 :: chunk64F fuel (l.drop 64)

def chunk64 (l : List Nat) : List (List Nat) :=
  chunk64F l.length l

def wordBytes (w : Nat) : List Nat :=
  [(w >>> 24) % 256, (w >>> 16) % 256, (w >>> 8) % 256, w % 256]

def sha256Bytes (msg : List Nat) : List Nat :=
  let st := (chunk64 (padMessage msg)).foldl compressBlock shaInit
  wordBytes st.a ++ wordBytes st.b ++ wordBytes st.c ++ wordBytes st.d ++
  wordBytes st.e ++ wordBytes st.f ++ wordBytes st.g ++ wordBytes st.h

def hexDigitChar (n : Nat) : Char :=
  if n < 10 then Char.ofNat (48 + n) else Char.ofNat (87 + n)

def sha256HexChars (msg : List Nat) : List Char :=
  (sha256Bytes msg).flatMap (fun b => [hexDigitChar (b / 16), hexDigitChar (b % 16)])

/-- UTF-8 encoding of one character (node's default string encoding for hashing). -/
def utf8EncodeCharNat (c : Char) : List Nat :=
  let n := c.toNat
  if n < 128 then [n]
  else if n < 2048 then [192 + n / 64, 128 + n % 64]
  else if n < 65536 then [224 + n / 4096, 128 + (n / 64) % 64, 128 + n % 64]
  else [240 + n / 262144, 128 + (n / 4096) % 64, 128 + (n / 64) % 64, 128 + n % 64]

def utf8Bytes (s : String) : List Nat :=
  s.data.flatMap utf8EncodeCharNat

/-! ### Name Generator (manager.ts: sanitizeToolPart, makeMcpToolName) -/

/-- The whitespace set of JavaScript `String.prototype.trim`. -/
def isJsWhitespace (c : Char) : Bool :=
  let n := c.toNat
  (9 ≤ n && n ≤ 13) || n == 32 || n == 160 || n == 5760 ||
  (8192 ≤ n && n ≤ 8202) || n == 8232 || n == 8233 || n == 8239 ||
  n == 8287 || n == 12288 || n == 65279

/-- JavaScript `value.trim()` on the character list. -/
def jsTrim (s : String) : String :=
  String.mk (((s.data.dropWhile isJsWhitespace).reverse.dropWhile isJsWhitespace).reverse)

def isAllowedNameChar (c : Char) : Bool :=
  c.isAlphanum || c == '_' || c == '-'

def collapseUnd : List Char → List Char
  | [] => []
  | c :: rest =>
    let r := collapseUnd rest
    if c == '_' then
      match r with
      | '_' :: _ => r
      | _ => c :: r
    else c :: r

def dropLeadingUnd (l : List Char) : List Char := l.dropWhile (fun c => c == '_')

def dropTrailingUnd (l : List Char) : List Char :=
  (l.reverse.dropWhile (fun c => c == '_')).reverse

/-- Embeds `sanitizeToolPart`: trim, replace chars outside `[A-Za-z0-9_-]` with
`_`, collapse runs of `_`, strip leading/trailing `_`, defaulting to `"tool"`. -/
def sanitizeToolPart (value : String) : String :=
  let trimmed := jsTrim value
  if trimmed = "" then "tool"
  else
    let replaced := trimmed.data.map (fun c => if isAllowedNameChar c then c else '_')
    let sanitized := String.mk (dropTrailingUnd (dropLeadingUnd (collapseUnd replaced)))
    if sanitized = "" then "tool" else sanitized

/-- The 8-hex-char truncated SHA-256 of `"<serverName>:<toolName>"`. -/
def mcpHash8 (serverName toolName : String) : String :=
  String.mk ((sha256HexChars (utf8Bytes (serverName ++ ":" ++ toolName))).take 8)

/-- The truncated composed stem used on the long-name path of `makeMcpToolName`
(`base.slice(0, maxPrefix).replace(/_+$/g, "")`). -/
def mcpNameStem (serverName toolName : String) : String :=
  let base := "mcp_" ++ sanitizeToolPart serverName ++ "_" ++ sanitizeToolPart toolName
  let hash := mcpHash8 serverName toolName
  let maxStem := max 1 (64 - hash.length - 1)
  String.mk (dropTrailingUnd (base.data.take maxStem))

/-- Embeds `makeMcpToolName`. -/
def makeMcpToolName (serverName toolName : String) : String :=
  let base := "mcp_" ++ sanitizeToolPart serverName ++ "_" ++ sanitizeToolPart toolName
  if base.length ≤ 64 then base
  else mcpNameStem serverName toolName ++ "_" ++ mcpHash8 serverName toolName

/-! ### Content Translator data model (manager.ts: content blocks and tool results) -/

/-- An inline resource payload nested in a protocol content block
(`block.resource` with optional `uri` / `text` string fields). -/
structure RawResource where
  uri : Option String := none
  text : Option String := none
deriving DecidableEq

/-- A protocol content block as `formatContentBlock` reads it: every field a
dynamically-typed property that may be absent or of the wrong type (absence
and wrong type both modelled as `none`, matching the `typeof` guards). -/
structure RawBlock where
  type : Option String := none
  text : Option String := none
  data : Option String := none
  mimeType : Option String := none
  uri : Option String := none
  description : Option String := none
  resource : Option RawResource := none
deriving DecidableEq

/-- Host-facing output block (`TextContent | ImageContent`). -/
inductive OutBlock where
  | text (text : String)
  | image (data : String) (mimeType : String)
deriving DecidableEq

/-- `ToolReturnContent`: a plain string or an ordered block sequence. -/
inductive ToolReturnContent where
  | str (s : String)
  | blocks (bs : List OutBlock)
deriving DecidableEq

def toTextContent (text : String) : OutBlock := OutBlock.text text

def toImageContent (data mimeType : String) : OutBlock := OutBlock.image data mimeType

/-- Embeds `formatContentBlock` (rich conversion of one block). -/
def formatContentBlock (block : RawBlock) : OutBlock :=
  let type := block.type.getD "unknown"
  if type == "text" && block.text.isSome then
    toTextContent (block.text.getD "")
  else if type == "image" && block.data.isSome && block.mimeType.isSome then
    toImageContent (block.data.getD "") (block.mimeType.getD "")
  else if type == "resource_link" then
    let uri := block.uri.getD "unknown"
    let description := match block.description with
      | some d => " " ++ d
      | none => ""
    toTextContent ("[resource link] " ++ uri ++ description)
  else if type == "resource" && block.resource.isSome then
    let resource := block.resource.getD {}
    let uri := resource.uri.getD "unknown"
    match resource.text with
    | some t => toTextContent t
    | none => toTextContent ("[resource] " ++ uri)
  else if type == "audio" then
    toTextContent ("[audio " ++ block.mimeType.getD "audio/unknown" ++ "]")
  else
    toTextContent ("[" ++ type ++ " content]")

/-! ### JSON values and JSON.stringify(v, null, 2) (for structuredContent) -/

inductive Json where
  | null
  | bool (b : Bool)
  | num (n : Int)
  | str (s : String)
  | arr (xs : List Json)
  | obj (fields : List (String × Json))

def hexDigit2 (n : Nat) : String :=
  String.mk [hexDigitChar (n / 16), hexDigitChar (n % 16)]

def escapeJsonChar (c : Char) : String :=
  if c = '"' then "\\\""
  else if c = '\\' then "\\\\"
  else if c = '\n' then "\\n"
  else if c = '\r' then "\\r"
  else if c = '\t' then "\\t"
  else if c.toNat = 8 then "\\b"
  else if c.toNat = 12 then "\\f"
  else if c.toNat < 32 then "\\u00" ++ hexDigit2 c.toNat
  else String.singleton c

def jsonQuote (s : String) : String :=
  "\"" ++ String.join (s.data.map escapeJsonChar) ++ "\""

mutual

/-- `JSON.stringify(v, null, 2)` at enclosing indentation `ind`. -/
def jsonStringify (ind : String) : Json → String
  | Json.null => "null"
  | Json.bool true => "true"
  | Json.bool false => "false"
  | Json.num n => toString n
  | Json.str s => jsonQuote s
  | Json.arr [] => "[]"
  | Json.arr (x :: xs) =>
    "[\n" ++ String.intercalate ",\n" (jsonStringifyItems (ind ++ "  ") (x :: xs)) ++
    "\n" ++ ind ++ "]"
  | Json.obj [] => "\x7b\x7d"
  | Json.obj (f :: fs) =>
    "\x7b\n" ++ String.intercalate ",\n" (jsonStringifyFields (ind ++ "  ") (f :: fs)) ++
    "\n" ++ ind ++ "\x7d"

def jsonStringifyItems (ind : String) : List Json → List String
  | [] => []
  | x :: xs => (ind ++ jsonStringify ind x) :: jsonStringifyItems ind xs

def jsonStringifyFields (ind : String) : List (String × Json) → List String
  | [] => []
  | (k, v) :: fs =>
    (ind ++ jsonQuote k ++ ": " ++ jsonStringify ind v) :: jsonStringifyFields ind fs

end

/-! ### convertToolResult / toErrorMessage / progress handling -/

/-- The raw terminal result of a tool call: optional content-block list,
optional structured-content record, optional error flag (absence of the
boolean models `undefined`, which is falsy). -/
structure RawToolResult where
  content : Option (List RawBlock) := none
  structuredContent : Option (List (String × Json)) := none
  isError : Option Bool := none

/-- Embeds `convertToolResult`. -/
def convertToolResult (result : RawToolResult) : ToolReturnContent :=
  match result.structuredContent with
  | some sc => ToolReturnContent.str (jsonStringify "" (Json.obj sc))
  | none =>
    let content := result.content.getD []
    if content.length = 0 then ToolReturnContent.str ""
    else ToolReturnContent.blocks (content.map formatContentBlock)

def isTextBlock : OutBlock → Bool
  | OutBlock.text _ => true
  | OutBlock.image _ _ => false

def textOfBlock : OutBlock → String
  | OutBlock.text t => t
  | OutBlock.image _ _ => ""

/-- Embeds `toErrorMessage`. -/
def toErrorMessage (output : ToolReturnContent) : String :=
  match output with
  | ToolReturnContent.str s => if s = "" then "MCP tool error" else s
  | ToolReturnContent.blocks bs =>
    let text := String.intercalate "\n" ((bs.filter isTextBlock).map textOfBlock)
    if text = "" then "MCP tool error" else text

/-- Embeds `appendProgressToOutput`. -/
def appendProgressToOutput (output : ToolReturnContent) (progressLines : List String) :
    ToolReturnContent :=
  if progressLines.length = 0 then output
  else
    let progressText :=
      "Progress:\n" ++ String.intercalate "\n" (progressLines.map (fun line => "- " ++ line))
    match output with
    | ToolReturnContent.str s =>
      ToolReturnContent.str ((if s = "" then "" else s ++ "\n\n") ++ progressText)
    | ToolReturnContent.blocks bs =>
      ToolReturnContent.blocks (bs ++ [toTextContent progressText])

/-- Embeds the shared result post-processing tail of `callMcpTool`
(manager.ts lines 494-502): missing terminal result is a local failure,
a server-flagged error raises the extracted message, otherwise progress
lines are appended to the converted output. -/
def finishToolCall (toolName : String) (result : Option RawToolResult)
    (progressLines : List String) : Except String ToolReturnContent :=
  match result with
  | none => Except.error ("MCP tool " ++ toolName ++ " did not return a result")
  | some r =>
    let output := convertToolResult r
    if r.isError.getD false then Except.error (toErrorMessage output)
    else Except.ok (appendProgressToOutput output progressLines)

/-! ### Interaction Bridge (interactions.ts and the per-connection handlers in createConnection) -/

/-- Elicitation request params: the optional `mode` property plus an opaque
payload standing for the form fields. -/
structure ElicitParams where
  mode : Option String := none
  payload : String := ""
deriving DecidableEq

/-- Elicitation result (`{action, content?}`). -/
structure ElicitResult where
  action : String
  content : Option String := none
deriving DecidableEq

/-- Sampling request params (opaque payload). -/
structure SamplingParams where
  payload : String := ""
deriving DecidableEq

/-- Sampling result (opaque assistant message). -/
structure SamplingResult where
  message : String
deriving DecidableEq

inductive McpErrorCode where
  | invalidParams
  | methodNotFound
deriving DecidableEq

structure McpErr where
  code : McpErrorCode
  message : String
deriving DecidableEq

/-- The process-wide swappable handler registry (`let handlers = {}`). -/
structure McpInteractionHandlers where
  onElicitation : Option (String → ElicitParams → ElicitResult) := none
  onSampling : Option (String → SamplingParams → SamplingResult) := none

/-- Embeds `setMcpInteractionHandlers` (`handlers = nextHandlers ?? {}`). -/
def setMcpInteractionHandlers (nextHandlers : Option McpInteractionHandlers) :
    McpInteractionHandlers :=
  nextHandlers.getD {}

/-- Embeds `handleElicitationRequest` (interactions.ts). -/
def handleElicitationRequest (handlers : McpInteractionHandlers)
    (serverName : String) (params : ElicitParams) : ElicitResult :=
  match handlers.onElicitation with
  | some f => f serverName params
  | none => { action := "cancel" }

/-- Embeds the `ElicitRequestSchema` request handler installed by
`createConnection` (manager.ts lines 179-188): URL-mode requests are rejected
with an invalid-params protocol error before the registry is consulted. -/
def elicitRequestHandler (handlers : McpInteractionHandlers)
    (serverName : String) (params : ElicitParams) : Except McpErr ElicitResult :=
  if params.mode = some "url" then
    Except.error ⟨McpErrorCode.invalidParams, "URL-based elicitation is not supported"⟩
  else
    Except.ok (handleElicitationRequest handlers serverName params)

/-- Embeds `handleSamplingRequest` (interactions.ts). -/
def handleSamplingRequest (handlers : McpInteractionHandlers)
    (serverName : String) (params : SamplingParams) : Except McpErr SamplingResult :=
  match handlers.onSampling with
  | some f => Except.ok (f serverName params)
  | none => Except.error ⟨McpErrorCode.methodNotFound, "Sampling not supported in this session"⟩

/-! ### Resource-read synthetic tool (manager.ts: readResourceTool.execute) -/

/-- One entry of `result.contents` from `client.readResource`. -/
structure ResourceContent where
  uri : Option String := none
  mimeType : Option String := none
  text : Option String := none
  blob : Option String := none
deriving DecidableEq

/-- What the resource-read execute returns: a string, a single block
(`blocks[0]` when exactly one), or a block sequence. -/
inductive ReadResourceOutput where
  | str (s : String)
  | block (b : OutBlock)
  | blocks (bs : List OutBlock)
deriving DecidableEq

def strStartsWith (s p : String) : Bool :=
  p.data.isPrefixOf s.data

/-- The per-part translation in the readResourceTool loop: inline text wins,
then blobs (image vs byte-count placeholder); a part with neither text nor
blob pushes no block. -/
def readResourceBlock (uri : String) (content : ResourceContent) : Option OutBlock :=
  let resourceUri := content.uri.getD uri
  let mimeType := content.mimeType.getD "application/octet-stream"
  match content.text with
  | some t => some (toTextContent t)
  | none =>
    match content.blob with
    | some b =>
      if strStartsWith mimeType "image/" then some (toImageContent b mimeType)
      else
        some (toTextContent
          ("[binary " ++ mimeType ++ "] " ++ resourceUri ++ " (" ++
           toString b.length ++ " base64 chars)"))
    | none => none

/-- Embeds the contents post-processing of `readResourceTool.execute`. -/
def readResourceContents (uri : String) (contents : List ResourceContent) :
    ReadResourceOutput :=
  if contents.length = 0 then
    ReadResourceOutput.str ("No contents returned for resource " ++ uri)
  else
    let blocks := contents.filterMap (readResourceBlock uri)
    match blocks with
    | [b] => ReadResourceOutput.block b
    | _ => ReadResourceOutput.blocks blocks

/-- `typeof args.uri === "string" ? args.uri : null` on a JSON argument map. -/
def argString (args : List (String × Json)) (key : String) : Option String :=
  match List.lookup key args with
  | some (Json.str s) => some s
  | _ => none

/-- Embeds `readResourceTool.execute` given the server's returned contents:
the local `uri` check (`if (!uri) throw`) happens before any request. -/
def readResourceExecute (args : List (String × Json))
    (contents : List ResourceContent) : Except String ReadResourceOutput :=
  match argString args "uri" with
  | none => Except.error "uri is required"
  | some uri =>
    if uri = "" then Except.error "uri is required"
    else Except.ok (readResourceContents uri contents)

/-! ### Connection Manager (manager.ts: connections / pendingConnections maps, getConnection)

The two module maps and the promise machinery are embedded as an explicit
state: promises are attempt identifiers, `createConnection` is abstracted to
the `started` counter (one increment per underlying connect operation), and
the synchronous section of `getConnection` — from the map reads to
`pendingConnections.set` there is no await, so on the single-threaded event
loop it runs atomically — is one step function. -/

structure ConnState where
  connections : List (String × Nat) := []
  pending : List (String × Nat) := []
  nextId : Nat := 0
  started : Nat := 0
deriving DecidableEq

/-- What a caller of `getConnection` receives: an existing live connection,
or a (possibly just created) in-flight connection promise. -/
inductive ConnResult where
  | live (cid : Nat)
  | attempt (aid : Nat)
deriving DecidableEq

/-- JS `Map.prototype.set`: update in place if the key exists, else append. -/
def mapSet {α : Type} (l : List (String × α)) (k : String) (v : α) : List (String × α) :=
  match l with
  | [] => [(k, v)]
  | (k2, v2) :: rest => if k2 == k then (k, v) :: rest else (k2, v2) :: mapSet rest k v

/-- JS `Map.prototype.delete`. -/
def mapDelete {α : Type} (l : List (String × α)) (k : String) : List (String × α) :=
  l.filter (fun p => ¬(p.1 == k))

/-- Embeds one call to `getConnection` for server `key`. -/
def getConnectionStep (key : String) (s : ConnState) : ConnResult × ConnState :=
  match List.lookup key s.connections with
  | some cid => (ConnResult.live cid, s)
  | none =>
    match List.lookup key s.pending with
    | some aid => (ConnResult.attempt aid, s)
    | none =>
      (ConnResult.attempt s.nextId,
       { s with pending := mapSet s.pending key s.nextId,
                nextId := s.nextId + 1,
                started := s.started + 1 })

/-- `n` callers requesting a connection to `key`, none of whose connect
attempts has settled yet (no interleaved resolution step). -/
def runCallers (key : String) : Nat → ConnState → List ConnResult × ConnState
  | 0, s => ([], s)
  | n + 1, s =>
    let (r, s1) := getConnectionStep key s
    let (rs, s2) := runCallers key n s1
    (r :: rs, s2)

/-! ### Refresh Orchestrator (manager.ts: refreshMcpTools)

`loadServerTools` performs network I/O, so the per-server catalog build is
abstracted as an oracle `build : String → Except String (List α)` giving each
server's outcome; the orchestration around it is translated directly. -/

structure ServerStatus where
  name : String
  toolCount : Nat
  error : Option String := none
deriving DecidableEq

/-- A live connection is (re)established by a successful build, `Set`-like. -/
def connAdd (conns : List String) (name : String) : List String :=
  if conns.contains name then conns else conns ++ [name]

/-- The per-server loop of `refreshMcpTools` (lines 830-847): success replaces
the cached catalog and records the new count; failure closes the connection,
keeps the cache, and records the previous count (`cached?.length ?? 0`) with
the message. -/
def refreshLoop {α : Type} (build : String → Except String (List α)) :
    List String → List (String × List α) → List String →
    List ServerStatus × List (String × List α) × List String
  | [], cache, conns => ([], cache, conns)
  | name :: rest, cache, conns =>
    match build name with
    | Except.ok tools =>
      let out := refreshLoop build rest (mapSet cache name tools) (connAdd conns name)
      (⟨name, tools.length, none⟩ :: out.1, out.2)
    | Except.error msg =>
      let count := match List.lookup name cache with
        | some cached => cached.length
        | none => 0
      let out := refreshLoop build rest cache (conns.filter (fun c => ¬(c == name)))
      (⟨name, count, some msg⟩ :: out.1, out.2)

/-- A configured server as the refresh pass sees it. -/
structure ServerCfg where
  name : String
  enabled : Option Bool := none
deriving DecidableEq

def refreshActiveNames (configs : List ServerCfg) : List String :=
  (configs.filter (fun c => c.enabled.getD true)).map (fun c => c.name)

/-- The outcome of one `refreshMcpTools` pass. -/
structure RefreshOutcome (α : Type) where
  servers : List ServerStatus
  totalTools : Nat
  published : List α
  cache : List (String × List α)
  conns : List String
deriving DecidableEq

/-- Embeds `refreshMcpTools`: normalize enabled flags, filter to enabled
servers, prune stale cache entries, run the per-server loop, then publish
`Array.from(toolCache.values()).flat()` and return counts. -/
def refreshMcpTools {α : Type} (build : String → Except String (List α))
    (configs : List ServerCfg) (cache0 : List (String × List α))
    (conns0 : List String) : RefreshOutcome α :=
  let activeNames := refreshActiveNames configs
  let cache1 := cache0.filter (fun p => activeNames.contains p.1)
  let out := refreshLoop build activeNames cache1 conns0
  let dynamicTools := (out.2.1.map Prod.snd).flatten
  { servers := out.1
    totalTools := dynamicTools.length
    published := dynamicTools
    cache := out.2.1
    conns := out.2.2 }

/-- The merged set as §3 of the spec words it: the cached catalogs flattened
in server-iteration order.  Stated from the spec, for comparison with what
`refreshMcpTools` actually publishes. -/
def mergedInIterationOrder {α : Type} (build : String → Except String (List α))
    (configs : List ServerCfg) (cache0 : List (String × List α))
    (conns0 : List String) : List α :=
  let activeNames := refreshActiveNames configs
  let finalCache := (refreshMcpTools build configs cache0 conns0).cache
  (activeNames.map (fun n => (List.lookup n finalCache).getD [])).flatten

/-- The per-server status entry as a function of that server's own build
outcome and the cache state before the pass (used to state that one server's
failure does not leak into another server's entry). -/
def statusOf {α : Type} (build : String → Except String (List α))
    (cache : List (String × List α)) (name : String) : ServerStatus :=
  match build name with
  | Except.ok tools => ⟨name, tools.length, none⟩
  | Except.error msg =>
    ⟨name,
     (match List.lookup name cache with
      | some cached => cached.length
      | none => 0),
     some msg⟩

/-- How one pre-pass cache entry looks after the pass: replaced by the newly
built catalog when its server's build succeeded, untouched otherwise. -/
def refreshUpdateEntry {α : Type} (build : String → Except String (List α))
    (p : String × List α) : String × List α :=
  match build p.1 with
  | Except.ok tools => (p.1, tools)
  | Except.error _ => p

/-- The entries a refresh pass appends: servers not previously cached whose
build succeeded, in iteration order. -/
def refreshNewEntries {α : Type} (build : String → Except String (List α))
    (names : List String) (cache : List (String × List α)) : List (String × List α) :=
  (names.filter (fun n => ¬(cache.map Prod.fst).contains n)).filterMap
    (fun n => match build n with
      | Except.ok tools => some (n, tools)
      | Except.error _ => none)

/-- The cache after a pass, in cache insertion order, as the amended claim
words it: previously cached servers keep their positions (values updated
where the build succeeded), newly cached servers append in iteration order.
Stated for comparison with what `refreshMcpTools` actually produces. -/
def refreshCacheSpec {α : Type} (build : String → Except String (List α))
    (names : List String) (cache : List (String × List α)) : List (String × List α) :=
  cache.map (fun p => if p.1 ∈ names then refreshUpdateEntry build p else p) ++
  refreshNewEntries build names cache

set_option maxRecDepth 100000

set_option maxHeartbeats 4000000

/-! ### Helper lemmas -/

theorem filter_text_map_eq_filterMap (bs : List OutBlock) :
    (bs.filter isTextBlock).map textOfBlock =
      bs.filterMap (fun b => match b with
        | OutBlock.text t => some t
        | OutBlock.image _ _ => none) := by
  induction bs with
  | nil => rfl
  | cons b rest ih => cases b <;> simp [isTextBlock, textOfBlock, ih]

/-! ### Claim theorems -/

/-- Claim C6: rich conversion returns the pretty-printed JSON serialization of
the structured-content payload when one is carried, ignoring all content
blocks; with no structured content and an empty or absent content-block list
it returns the empty string, not an empty sequence. -/
theorem convertToolResult_structured_and_empty :
    (∀ (r : RawToolResult) (sc : List (String × Json)),
        r.structuredContent = some sc →
        convertToolResult r = ToolReturnContent.str (jsonStringify "" (Json.obj sc))) ∧
    (∀ r : RawToolResult,
        r.structuredContent = none →
        (r.content = none ∨ r.content = some []) →
        convertToolResult r = ToolReturnContent.str "") := by
  constructor
  · intro r sc h
    simp [convertToolResult, h]
  · intro r h hc
    rcases hc with hc | hc <;> simp [convertToolResult, h, hc]

/-- Witness for C6 at concrete inputs: a result carrying structured content
next to a non-empty block list, and a result with an empty block list. -/
theorem convertToolResult_structured_and_empty_witness :
    convertToolResult
        { structuredContent := some [("a", Json.num 1)],
          content := some [{ type := some "text", text := some "ignored" }] } =
      ToolReturnContent.str (jsonStringify "" (Json.obj [("a", Json.num 1)])) ∧
    convertToolResult { content := some [] } = ToolReturnContent.str "" :=
  ⟨convertToolResult_structured_and_empty.1 _ [("a", Json.num 1)] rfl,
   convertToolResult_structured_and_empty.2 _ rfl (Or.inr rfl)⟩

/-- Claim C7: error-message extraction returns a non-empty bare string
verbatim, the literal fallback for an empty string, and otherwise the
newline-join of exactly the text-kind members (falling back to the literal
when that join is empty); and an execution whose server result is marked as
an error raises the extracted message instead of returning. -/
theorem toErrorMessage_and_error_raise :
    (∀ s : String, s ≠ "" → toErrorMessage (ToolReturnContent.str s) = s) ∧
    toErrorMessage (ToolReturnContent.str "") = "MCP tool error" ∧
    (∀ bs : List OutBlock,
        toErrorMessage (ToolReturnContent.blocks bs) =
          (if String.intercalate "\n" (bs.filterMap (fun b => match b with
              | OutBlock.text t => some t
              | OutBlock.image _ _ => none)) = ""
           then "MCP tool error"
           else String.intercalate "\n" (bs.filterMap (fun b => match b with
              | OutBlock.text t => some t
              | OutBlock.image _ _ => none)))) ∧
    (∀ (toolName : String) (r : RawToolResult) (progressLines : List String),
        r.isError = some true →
        finishToolCall toolName (some r) progressLines =
          Except.error (toErrorMessage (convertToolResult r))) := by
  refine ⟨fun s hs => ?_, rfl, fun bs => ?_, fun toolName r lines hr => ?_⟩
  · simp [toErrorMessage, hs]
  · simp [toErrorMessage, filter_text_map_eq_filterMap]
  · simp [finishToolCall, hr]

/-- Witness for C7 at concrete inputs. -/
theorem toErrorMessage_and_error_raise_witness :
    toErrorMessage (ToolReturnContent.str "boom") = "boom" ∧
    (toErrorMessage (ToolReturnContent.blocks
        [OutBlock.text "x", OutBlock.image "d" "image/png", OutBlock.text "y"]) =
      (if String.intercalate "\n"
            ([OutBlock.text "x", OutBlock.image "d" "image/png",
              OutBlock.text "y"].filterMap (fun b => match b with
                | OutBlock.text t => some t
                | OutBlock.image _ _ => none)) = ""
        then "MCP tool error"
        else String.intercalate "\n"
            ([OutBlock.text "x", OutBlock.image "d" "image/png",
              OutBlock.text "y"].filterMap (fun b => match b with
                | OutBlock.text t => some t
                | OutBlock.image _ _ => none)))) ∧
    finishToolCall "t" (some { content := some [{ type := some "text", text := some "bad" }],
                               isError := some true }) [] =
      Except.error (toErrorMessage (convertToolResult
        { content := some [{ type := some "text", text := some "bad" }],
          isError := some true })) :=
  ⟨toErrorMessage_and_error_raise.1 "boom" (by decide),
   toErrorMessage_and_error_raise.2.2.1 _,
   toErrorMessage_and_error_raise.2.2.2 "t" _ [] rfl⟩

/-- Claim C8: a form-mode elicitation request is forwarded to the registered
handler and its result returned; with no handler the bridge returns the
cancellation result; a URL-mode request is rejected with an invalid-params
protocol error regardless of any handler; a sampling request with no handler
fails with a method-not-found protocol error. -/
theorem interaction_bridge_fallbacks :
    (∀ (h : McpInteractionHandlers) (n : String) (p : ElicitParams)
        (f : String → ElicitParams → ElicitResult),
        p.mode ≠ some "url" → h.onElicitation = some f →
        elicitRequestHandler h n p = Except.ok (f n p)) ∧
    (∀ (h : McpInteractionHandlers) (n : String) (p : ElicitParams),
        p.mode ≠ some "url" → h.onElicitation = none →
        elicitRequestHandler h n p = Except.ok { action := "cancel" }) ∧
    (∀ (h : McpInteractionHandlers) (n : String) (p : ElicitParams),
        p.mode = some "url" →
        elicitRequestHandler h n p =
          Except.error ⟨McpErrorCode.invalidParams, "URL-based elicitation is not supported"⟩) ∧
    (∀ (h : McpInteractionHandlers) (n : String) (p : SamplingParams),
        h.onSampling = none →
        handleSamplingRequest h n p =
          Except.error ⟨McpErrorCode.methodNotFound, "Sampling not supported in this session"⟩) := by
  refine ⟨fun h n p f hm hf => ?_, fun h n p hm hf => ?_, fun h n p hm => ?_, fun h n p hs => ?_⟩
  · simp [elicitRequestHandler, handleElicitationRequest, hm, hf]
  · simp [elicitRequestHandler, handleElicitationRequest, hm, hf]
  · simp [elicitRequestHandler, hm]
  · simp [handleSamplingRequest, hs]

/-- Witness for C8 at concrete inputs. -/
theorem interaction_bridge_fallbacks_witness :
    elicitRequestHandler
        { onElicitation := some (fun (n : String) (p : ElicitParams) =>
            { action := "accept", content := some (n ++ p.payload) }) }
        "srv" { mode := some "form", payload := "x" } =
      Except.ok ((fun (n : String) (p : ElicitParams) =>
            ElicitResult.mk "accept" (some (n ++ p.payload)))
        "srv" { mode := some "form", payload := "x" }) ∧
    elicitRequestHandler {} "srv" { mode := none } = Except.ok { action := "cancel" } ∧
    elicitRequestHandler {} "srv" { mode := some "url" } =
      Except.error ⟨McpErrorCode.invalidParams, "URL-based elicitation is not supported"⟩ ∧
    handleSamplingRequest {} "srv" { payload := "q" } =
      Except.error ⟨McpErrorCode.methodNotFound, "Sampling not supported in this session"⟩ :=
  ⟨interaction_bridge_fallbacks.1 _ "srv" _ _ (by decide) rfl,
   interaction_bridge_fallbacks.2.1 _ "srv" _ (by decide) rfl,
   interaction_bridge_fallbacks.2.2.1 _ "srv" _ rfl,
   interaction_bridge_fallbacks.2.2.2 _ "srv" _ rfl⟩

/-- Claim C9: the resource-read tool fails with a local error when the `uri`
argument is absent or not a string; a part with inline text becomes that
text; a binary blob with an `image/` MIME type becomes an image block; any
other blob becomes a textual byte-count placeholder rather than failing; and
exactly one resulting block is returned directly, not as a sequence. -/
theorem readResource_blocks_spec :
    (∀ (args : List (String × Json)) (contents : List ResourceContent),
        argString args "uri" = none →
        readResourceExecute args contents = Except.error "uri is required") ∧
    (∀ (uri : String) (c : ResourceContent) (t : String),
        c.text = some t → readResourceBlock uri c = some (OutBlock.text t)) ∧
    (∀ (uri : String) (c : ResourceContent) (b : String),
        c.text = none → c.blob = some b →
        strStartsWith (c.mimeType.getD "application/octet-stream") "image/" = true →
        readResourceBlock uri c =
          some (OutBlock.image b (c.mimeType.getD "application/octet-stream"))) ∧
    (∀ (uri : String) (c : ResourceContent) (b : String),
        c.text = none → c.blob = some b →
        strStartsWith (c.mimeType.getD "application/octet-stream") "image/" = false →
        readResourceBlock uri c =
          some (OutBlock.text
            ("[binary " ++ c.mimeType.getD "application/octet-stream" ++ "] " ++
             c.uri.getD uri ++ " (" ++ toString b.length ++ " base64 chars)"))) ∧
    (∀ (uri : String) (contents : List ResourceContent) (b : OutBlock),
        contents.filterMap (readResourceBlock uri) = [b] →
        readResourceContents uri contents = ReadResourceOutput.block b) := by
  refine ⟨fun args contents h => ?_, fun uri c t ht => ?_,
          fun uri c b ht hb him => ?_, fun uri c b ht hb him => ?_,
          fun uri contents b hb => ?_⟩
  · simp [readResourceExecute, h]
  · simp [readResourceBlock, toTextContent, ht]
  · simp [readResourceBlock, toImageContent, ht, hb, him]
  · simp [readResourceBlock, toTextContent, ht, hb, him]
  · have hne : contents ≠ [] := by
      intro hnil
      rw [hnil] at hb
      exact List.cons_ne_nil b [] (by simpa using hb.symm)
    have hlen : ¬contents.length = 0 := by
      simpa [List.length_eq_zero] using hne
    simp [readResourceContents, hlen, hb]

/-- Witness for C9 at concrete inputs: a missing-string `uri` argument, a text
part, a PNG blob, a PDF blob, and a single-block collapse. -/
theorem readResource_blocks_spec_witness :
    readResourceExecute [("uri", Json.num 3)] [] = Except.error "uri is required" ∧
    readResourceBlock "u" { text := some "hello" } = some (OutBlock.text "hello") ∧
    readResourceBlock "u" { mimeType := some "image/png", blob := some "QUJD" } =
      some (OutBlock.image "QUJD"
        ((ResourceContent.mk none (some "image/png") none (some "QUJD")).mimeType.getD
          "application/octet-stream")) ∧
    readResourceBlock "u" { mimeType := some "application/pdf", blob := some "QUJD" } =
      some (OutBlock.text
        ("[binary " ++
         (ResourceContent.mk none (some "application/pdf") none
            (some "QUJD")).mimeType.getD "application/octet-stream" ++ "] " ++
         (ResourceContent.mk none (some "application/pdf") none
            (some "QUJD")).uri.getD "u" ++ " (" ++
         toString ("QUJD" : String).length ++ " base64 chars)")) ∧
    readResourceContents "u" [{ text := some "only" }] =
      ReadResourceOutput.block (OutBlock.text "only") :=
  ⟨readResource_blocks_spec.1 [("uri", Json.num 3)] [] rfl,
   readResource_blocks_spec.2.1 "u" _ "hello" rfl,
   readResource_blocks_spec.2.2.1 "u" _ "QUJD" rfl rfl (by decide),
   readResource_blocks_spec.2.2.2.1 "u" _ "QUJD" rfl rfl (by decide),
   readResource_blocks_spec.2.2.2.2 "u" [{ text := some "only" }] _ rfl⟩

/-- Claim C10: on a non-empty contents list in which every part lacks both an
inline text string and a blob string, the resource-read tool returns an empty
block sequence — neither an error nor the no-contents message. -/
theorem readResource_all_empty_parts :
    ∀ (uri : String) (contents : List ResourceContent),
      contents ≠ [] →
      (∀ c ∈ contents, c.text = none ∧ c.blob = none) →
      readResourceContents uri contents = ReadResourceOutput.blocks [] := by
  intro uri contents hne hall
  have hblocks : contents.filterMap (readResourceBlock uri) = [] := by
    induction contents with
    | nil => rfl
    | cons c rest ih =>
      have hc := hall c (List.mem_cons_self c rest)
      have hrest : ∀ x ∈ rest, x.text = none ∧ x.blob = none :=
        fun x hx => hall x (List.mem_cons_of_mem c hx)
      have hcnone : readResourceBlock uri c = none := by
        simp [readResourceBlock, hc.1, hc.2]
      by_cases hr : rest = []
      · simp [hr, hcnone]
      · simpa [hcnone] using ih hr hrest
  have hlen : ¬contents.length = 0 := by
    simpa [List.length_eq_zero] using hne
  simp [readResourceContents, hlen, hblocks]

/-- Witness for C10 at a concrete input: one part carrying only a uri and a
MIME type. -/
theorem readResource_all_empty_parts_witness :
    ([({ uri := some "res://x", mimeType := some "text/plain" } : ResourceContent)] ≠
        ([] : List ResourceContent)) ∧
    readResourceContents "u" [{ uri := some "res://x", mimeType := some "text/plain" }] =
      ReadResourceOutput.blocks [] :=
  ⟨by decide,
   readResource_all_empty_parts "u" [{ uri := some "res://x", mimeType := some "text/plain" }]
     (by decide) (by decide)⟩

theorem length_flatMap_pair (f g : Nat → Char) (l : List Nat) :
    (l.flatMap (fun b => [f b, g b])).length = 2 * l.length := by
  induction l with
  | nil => rfl
  | cons b rest ih =>
    simp only [List.flatMap_cons, List.length_append, List.length_cons, ih]
    simp [Nat.mul_succ]
    omega

theorem sha256Bytes_length (msg : List Nat) : (sha256Bytes msg).length = 32 := by
  simp [sha256Bytes, wordBytes]

theorem sha256HexChars_length (msg : List Nat) : (sha256HexChars msg).length = 64 := by
  unfold sha256HexChars
  rw [length_flatMap_pair, sha256Bytes_length]

theorem mcpHash8_length (s t : String) : (mcpHash8 s t).length = 8 := by
  simp [mcpHash8, String.length, List.length_take, sha256HexChars_length]

theorem dropWhile_length_le (p : Char → Bool) (l : List Char) :
    (l.dropWhile p).length ≤ l.length := by
  induction l with
  | nil => simp
  | cons a rest ih =>
    by_cases h : p a <;> simp [List.dropWhile, h] <;> omega

theorem dropTrailingUnd_length_le (l : List Char) :
    (dropTrailingUnd l).length ≤ l.length := by
  have h := dropWhile_length_le (fun c => c == '_') l.reverse
  simpa [dropTrailingUnd] using h

theorem mcpNameStem_length_le (s t : String) : (mcpNameStem s t).length ≤ 55 := by
  have hmax : max 1 (64 - (mcpHash8 s t).length - 1) = 55 := by
    rw [mcpHash8_length]
    decide
  have hrfl : (mcpNameStem s t).length =
      (dropTrailingUnd ((("mcp_" ++ sanitizeToolPart s ++ "_" ++
        sanitizeToolPart t).data).take (max 1 (64 - (mcpHash8 s t).length - 1)))).length := rfl
  rw [hrfl, hmax]
  calc (dropTrailingUnd ((("mcp_" ++ sanitizeToolPart s ++ "_" ++
        sanitizeToolPart t).data).take 55)).length
      ≤ ((("mcp_" ++ sanitizeToolPart s ++ "_" ++
        sanitizeToolPart t).data).take 55).length := dropTrailingUnd_length_le _
    _ ≤ 55 := by
        rw [List.length_take]
        exact Nat.min_le_left _ _

theorem makeMcpToolName_short (s t : String)
    (h : ("mcp_" ++ sanitizeToolPart s ++ "_" ++ sanitizeToolPart t).length ≤ 64) :
    makeMcpToolName s t = "mcp_" ++ sanitizeToolPart s ++ "_" ++ sanitizeToolPart t := by
  simp only [makeMcpToolName, if_pos h]

theorem makeMcpToolName_long (s t : String)
    (h : ¬("mcp_" ++ sanitizeToolPart s ++ "_" ++ sanitizeToolPart t).length ≤ 64) :
    makeMcpToolName s t = mcpNameStem s t ++ "_" ++ mcpHash8 s t := by
  simp only [makeMcpToolName, if_neg h]

/-- Claim C3: `makeMcpToolName` is deterministic, its output never exceeds 64
characters, and when the sanitized composition is at most 64 characters it is
returned unchanged. -/
theorem makeMcpToolName_spec :
    (∀ s t s2 t2 : String, s = s2 → t = t2 → makeMcpToolName s t = makeMcpToolName s2 t2) ∧
    (∀ s t : String, (makeMcpToolName s t).length ≤ 64) ∧
    (∀ s t : String,
        ("mcp_" ++ sanitizeToolPart s ++ "_" ++ sanitizeToolPart t).length ≤ 64 →
        makeMcpToolName s t = "mcp_" ++ sanitizeToolPart s ++ "_" ++ sanitizeToolPart t) := by
  refine ⟨fun s t s2 t2 hs ht => by rw [hs, ht], fun s t => ?_,
          fun s t h => makeMcpToolName_short s t h⟩
  by_cases hb : ("mcp_" ++ sanitizeToolPart s ++ "_" ++ sanitizeToolPart t).length ≤ 64
  · rw [makeMcpToolName_short s t hb]
    exact hb
  · rw [makeMcpToolName_long s t hb, String.length_append, String.length_append,
        mcpHash8_length]
    have hstem := mcpNameStem_length_le s t
    have hund : ("_" : String).length = 1 := rfl
    rw [hund]
    omega

/-- Witness for C3 at the spec's own example `("docs", "search")`. -/
theorem makeMcpToolName_spec_witness :
    makeMcpToolName "docs" "search" = makeMcpToolName "docs" "search" ∧
    (makeMcpToolName "docs" "search").length ≤ 64 ∧
    makeMcpToolName "docs" "search" =
      "mcp_" ++ sanitizeToolPart "docs" ++ "_" ++ sanitizeToolPart "search" :=
  ⟨makeMcpToolName_spec.1 "docs" "search" "docs" "search" rfl rfl,
   makeMcpToolName_spec.2.1 "docs" "search",
   makeMcpToolName_spec.2.2 "docs" "search" (by decide)⟩

theorem lookup_mapSet_self {α : Type} (l : List (String × α)) (k : String) (v : α) :
    List.lookup k (mapSet l k v) = some v := by
  induction l with
  | nil => simp [mapSet, List.lookup]
  | cons p rest ih =>
    obtain ⟨k2, v2⟩ := p
    by_cases h : k2 = k
    · simp [mapSet, h, List.lookup]
    · have hb : (k2 == k) = false := by simpa using h
      have hb2 : (k == k2) = false := by
        simp only [beq_eq_false_iff_ne]
        exact fun he => h he.symm
      simp [mapSet, hb, List.lookup, hb2, ih]

theorem getConnectionStep_pending (key : String) (s : ConnState) (aid : Nat)
    (h1 : List.lookup key s.connections = none)
    (h2 : List.lookup key s.pending = some aid) :
    getConnectionStep key s = (ConnResult.attempt aid, s) := by
  simp [getConnectionStep, h1, h2]

theorem runCallers_pending (key : String) (m : Nat) (s : ConnState) (aid : Nat)
    (h1 : List.lookup key s.connections = none)
    (h2 : List.lookup key s.pending = some aid) :
    runCallers key m s = (List.replicate m (ConnResult.attempt aid), s) := by
  induction m with
  | zero => simp [runCallers]
  | succ n ih =>
    simp [runCallers, getConnectionStep_pending key s aid h1 h2, ih, List.replicate]

/-- Claim C1: while no live Connection exists for a server name, any positive
number of callers arriving before the attempt settles start exactly one
underlying connect operation and all receive the same in-flight attempt
(hence the same Connection when it resolves); when a live Connection exists
it is returned unchanged, with no new attempt. -/
theorem getConnection_dedup :
    (∀ (key : String) (s : ConnState) (n : Nat),
        List.lookup key s.connections = none →
        List.lookup key s.pending = none →
        0 < n →
        (runCallers key n s).1 = List.replicate n (ConnResult.attempt s.nextId) ∧
        (runCallers key n s).2.started = s.started + 1) ∧
    (∀ (key : String) (s : ConnState) (cid : Nat),
        List.lookup key s.connections = some cid →
        getConnectionStep key s = (ConnResult.live cid, s)) := by
  constructor
  · intro key s n h1 h2 hn
    obtain ⟨m, rfl⟩ := Nat.exists_eq_succ_of_ne_zero (Nat.pos_iff_ne_zero.mp hn)
    have hstep : getConnectionStep key s =
        (ConnResult.attempt s.nextId,
         { s with pending := mapSet s.pending key s.nextId,
                  nextId := s.nextId + 1,
                  started := s.started + 1 }) := by
      simp [getConnectionStep, h1, h2]
    have hrest : runCallers key m
        { s with pending := mapSet s.pending key s.nextId,
                 nextId := s.nextId + 1,
                 started := s.started + 1 } =
        (List.replicate m (ConnResult.attempt s.nextId),
         { s with pending := mapSet s.pending key s.nextId,
                  nextId := s.nextId + 1,
                  started := s.started + 1 }) :=
      runCallers_pending key m _ s.nextId h1 (lookup_mapSet_self s.pending key s.nextId)
    simp [runCallers, hstep, hrest, List.replicate]
  · intro key s cid h
    simp [getConnectionStep, h]

/-- Witness for C1: ten simultaneous callers against a fresh state start one
attempt and all get attempt 0; a state with a live connection returns it. -/
theorem getConnection_dedup_witness :
    ((runCallers "srv" 10 {}).1 = List.replicate 10 (ConnResult.attempt 0) ∧
     (runCallers "srv" 10 {}).2.started = 0 + 1) ∧
    getConnectionStep "srv" { connections := [("srv", 7)] } =
      (ConnResult.live 7, { connections := [("srv", 7)] }) :=
  ⟨getConnection_dedup.1 "srv" {} 10 rfl rfl (by decide),
   getConnection_dedup.2 "srv" { connections := [("srv", 7)] } 7 (by decide)⟩

theorem lookup_mapSet_ne {α : Type} (l : List (String × α)) (k k2 : String) (v : α)
    (h : k ≠ k2) : List.lookup k (mapSet l k2 v) = List.lookup k l := by
  induction l with
  | nil =>
    have hb : (k == k2) = false := by simpa using h
    simp [mapSet, List.lookup, hb]
  | cons p rest ih =>
    obtain ⟨k3, v3⟩ := p
    by_cases h3 : k3 = k2
    · subst h3
      have hb : (k == k3) = false := by simpa using h
      simp [mapSet, List.lookup, hb]
    · have hb3 : (k3 == k2) = false := by simpa using h3
      simp [mapSet, hb3, List.lookup, ih]

theorem refreshLoop_results {α : Type} (build : String → Except String (List α)) :
    ∀ (names : List String) (cache : List (String × List α)) (conns : List String),
      names.Nodup →
      (refreshLoop build names cache conns).1 = names.map (statusOf build cache) := by
  intro names
  induction names with
  | nil => intro cache conns _; rfl
  | cons name rest ih =>
    intro cache conns hnd
    have hnotmem : name ∉ rest := (List.nodup_cons.mp hnd).1
    have hndrest : rest.Nodup := (List.nodup_cons.mp hnd).2
    cases hbuild : build name with
    | ok tools =>
      have hmap : rest.map (statusOf build (mapSet cache name tools)) =
          rest.map (statusOf build cache) := by
        apply List.map_congr_left
        intro m hm
        have hne : m ≠ name := fun he => hnotmem (he ▸ hm)
        simp [statusOf, lookup_mapSet_ne cache m name tools hne]
      simp [refreshLoop, hbuild, ih _ _ hndrest, statusOf, hmap]
    | error msg =>
      simp [refreshLoop, hbuild, ih _ _ hndrest, statusOf]

theorem refreshLoop_cache_of_failed {α : Type} (build : String → Except String (List α))
    (f : String) (msg : String) (he : build f = Except.error msg) :
    ∀ (names : List String) (cache : List (String × List α)) (conns : List String),
      List.lookup f (refreshLoop build names cache conns).2.1 = List.lookup f cache := by
  intro names
  induction names with
  | nil => intro cache conns; rfl
  | cons name rest ih =>
    intro cache conns
    cases hbuild : build name with
    | ok tools =>
      have hne : f ≠ name := by
        intro hfn
        rw [hfn, hbuild] at he
        exact Except.noConfusion he
      simp [refreshLoop, hbuild, ih, lookup_mapSet_ne cache f name tools hne]
    | error m2 =>
      simp [refreshLoop, hbuild, ih]

theorem refreshLoop_conns_avoid {α : Type} (build : String → Except String (List α))
    (f : String) :
    ∀ (names : List String) (cache : List (String × List α)) (conns : List String),
      f ∉ names → f ∉ conns →
      f ∉ (refreshLoop build names cache conns).2.2 := by
  intro names
  induction names with
  | nil => intro cache conns _ hc; exact hc
  | cons name rest ih =>
    intro cache conns hn hc
    have hne : f ≠ name := fun he => hn (he ▸ List.mem_cons_self name rest)
    have hrest : f ∉ rest := fun hm => hn (List.mem_cons_of_mem name hm)
    cases hbuild : build name with
    | ok tools =>
      have hcadd : f ∉ connAdd conns name := by
        unfold connAdd
        split
        · exact hc
        · intro hm
          rcases List.mem_append.mp hm with h | h
          · exact hc h
          · exact hne (List.mem_singleton.mp h)
      simpa [refreshLoop, hbuild] using
        ih (mapSet cache name tools) (connAdd conns name) hrest hcadd
    | error m2 =>
      have hfilter : f ∉ conns.filter (fun c => ¬(c == name)) :=
        fun hm => hc (List.mem_of_mem_filter hm)
      simpa [refreshLoop, hbuild] using
        ih cache (conns.filter (fun c => ¬(c == name))) hrest hfilter

theorem refreshLoop_conns_closed {α : Type} (build : String → Except String (List α))
    (f : String) (msg : String) (he : build f = Except.error msg) :
    ∀ (names : List String) (cache : List (String × List α)) (conns : List String),
      names.Nodup → f ∈ names →
      f ∉ (refreshLoop build names cache conns).2.2 := by
  intro names
  induction names with
  | nil => intro cache conns _ hf; cases hf
  | cons name rest ih =>
    intro cache conns hnd hf
    have hnotmem : name ∉ rest := (List.nodup_cons.mp hnd).1
    have hndrest : rest.Nodup := (List.nodup_cons.mp hnd).2
    by_cases hfn : f = name
    · subst hfn
      have hfilter : f ∉ conns.filter (fun c => ¬(c == f)) := by
        intro hm
        have := List.of_mem_filter hm
        simp at this
      simpa [refreshLoop, he] using
        refreshLoop_conns_avoid build f rest cache _ hnotmem hfilter
    · have hfrest : f ∈ rest := by
        cases List.mem_cons.mp hf with
        | inl h => exact absurd h hfn
        | inr h => exact h
      cases hbuild : build name with
      | ok tools =>
        simpa [refreshLoop, hbuild] using ih _ _ hndrest hfrest
      | error m2 =>
        simpa [refreshLoop, hbuild] using ih _ _ hndrest hfrest

/-- Claim C2: in a refresh pass, every enabled server whose catalog build
fails has its Connection closed and its previously cached catalog left
untouched; its status entry carries its name, the failure message and the
previous cached tool count (0 when no cache existed); every server's entry is
a function of its own outcome and the pre-pass cache only, and the pass
returns a complete status list. -/
theorem refresh_failure_isolation {α : Type} (build : String → Except String (List α))
    (names : List String) (cache : List (String × List α)) (conns : List String)
    (f : String) (msg : String)
    (hnd : names.Nodup) (hf : f ∈ names) (he : build f = Except.error msg) :
    (refreshLoop build names cache conns).1 = names.map (statusOf build cache) ∧
    statusOf build cache f =
      ⟨f,
       (match List.lookup f cache with
        | some cached => cached.length
        | none => 0),
       some msg⟩ ∧
    List.lookup f (refreshLoop build names cache conns).2.1 = List.lookup f cache ∧
    f ∉ (refreshLoop build names cache conns).2.2 :=
  ⟨refreshLoop_results build names cache conns hnd,
   by simp [statusOf, he],
   refreshLoop_cache_of_failed build f msg he names cache conns,
   refreshLoop_conns_closed build f msg he names cache conns hnd hf⟩

/-- Witness for C2: server A succeeds, server B fails with a prior cached
catalog of one tool and a live connection. -/
theorem refresh_failure_isolation_witness :
    (refreshLoop (fun n => if n = "B" then Except.error "boom" else Except.ok ["t1", "t2"])
        ["A", "B"] [("B", ["old"])] ["A", "B"]).1 =
      ["A", "B"].map (statusOf
        (fun n => if n = "B" then Except.error "boom" else Except.ok ["t1", "t2"])
        [("B", ["old"])]) ∧
    statusOf (fun n => if n = "B" then Except.error "boom" else Except.ok ["t1", "t2"])
        [("B", ["old"])] "B" =
      ⟨"B",
       (match List.lookup "B" [("B", ["old"])] with
        | some cached => cached.length
        | none => 0),
       some "boom"⟩ ∧
    List.lookup "B"
        (refreshLoop (fun n => if n = "B" then Except.error "boom" else Except.ok ["t1", "t2"])
          ["A", "B"] [("B", ["old"])] ["A", "B"]).2.1 =
      List.lookup "B" [("B", ["old"])] ∧
    "B" ∉ (refreshLoop (fun n => if n = "B" then Except.error "boom" else Except.ok ["t1", "t2"])
        ["A", "B"] [("B", ["old"])] ["A", "B"]).2.2 :=
  refresh_failure_isolation
    (fun n => if n = "B" then Except.error "boom" else Except.ok ["t1", "t2"])
    ["A", "B"] [("B", ["old"])] ["A", "B"] "B" "boom"
    (by decide) (by decide) rfl

theorem mapSet_append_of_lookup_none {α : Type} (l : List (String × α)) (k : String)
    (v : α) (h : List.lookup k l = none) : mapSet l k v = l ++ [(k, v)] := by
  induction l with
  | nil => rfl
  | cons p rest ih =>
    obtain ⟨k2, v2⟩ := p
    by_cases hk : k = k2
    · simp [List.lookup, hk] at h
    · have hb : (k == k2) = false := by simpa using hk
      have hb2 : (k2 == k) = false := by
        simp only [beq_eq_false_iff_ne]
        exact fun he => hk he.symm
      have hrest : List.lookup k rest = none := by simpa [List.lookup, hb] using h
      simp [mapSet, hb2, ih hrest]

theorem lookup_append_of_none {α : Type} (l1 l2 : List (String × α)) (k : String)
    (h : List.lookup k l1 = none) : List.lookup k (l1 ++ l2) = List.lookup k l2 := by
  induction l1 with
  | nil => rfl
  | cons p rest ih =>
    obtain ⟨k2, v2⟩ := p
    by_cases hk : k = k2
    · simp [List.lookup, hk] at h
    · have hb : (k == k2) = false := by simpa using hk
      have hrest : List.lookup k rest = none := by simpa [List.lookup, hb] using h
      simp [List.lookup, hb, ih hrest]

theorem refreshLoop_cache_append {α : Type} (build : String → Except String (List α)) :
    ∀ (names : List String) (cache : List (String × List α)) (conns : List String),
      names.Nodup →
      (∀ n ∈ names, List.lookup n cache = none) →
      (refreshLoop build names cache conns).2.1 =
        cache ++ names.filterMap (fun n => match build n with
          | Except.ok ts => some (n, ts)
          | Except.error _ => none) := by
  intro names
  induction names with
  | nil => intro cache conns _ _; simp [refreshLoop]
  | cons name rest ih =>
    intro cache conns hnd hnone
    have hnotmem : name ∉ rest := (List.nodup_cons.mp hnd).1
    have hndrest : rest.Nodup := (List.nodup_cons.mp hnd).2
    have hname : List.lookup name cache = none := hnone name (List.mem_cons_self name rest)
    cases hbuild : build name with
    | ok tools =>
      have hset : mapSet cache name tools = cache ++ [(name, tools)] :=
        mapSet_append_of_lookup_none cache name tools hname
      have hrestnone : ∀ m ∈ rest, List.lookup m (cache ++ [(name, tools)]) = none := by
        intro m hm
        have hmn : m ≠ name := fun he => hnotmem (he ▸ hm)
        have hb : (m == name) = false := by simpa using hmn
        rw [lookup_append_of_none cache [(name, tools)] m
            (hnone m (List.mem_cons_of_mem name hm))]
        simp [List.lookup, hb]
      have := ih (cache ++ [(name, tools)]) (connAdd conns name) hndrest hrestnone
      simp only [refreshLoop, hbuild, hset, this]
      simp [List.filterMap_cons, hbuild, List.append_assoc]
    | error msg =>
      have := ih cache (conns.filter (fun c => ¬(c == name))) hndrest
        (fun m hm => hnone m (List.mem_cons_of_mem name hm))
      simp only [refreshLoop, hbuild, this]
      simp [List.filterMap_cons, hbuild]

theorem map_snd_filterMap {α : Type} (build : String → Except String (List α))
    (names : List String) :
    (names.filterMap (fun n => match build n with
      | Except.ok ts => some (n, ts)
      | Except.error _ => none)).map Prod.snd =
    names.filterMap (fun n => match build n with
      | Except.ok ts => some ts
      | Except.error _ => none) := by
  induction names with
  | nil => rfl
  | cons name rest ih =>
    cases hbuild : build name with
    | ok tools => simp [List.filterMap_cons, hbuild, ih]
    | error msg => simp [List.filterMap_cons, hbuild, ih]

/-- Counterexample to claim C5 as stated: with a pre-existing cache whose
insertion order differs from the configured server order, the published
merged set follows cache insertion order, not the order servers are iterated
in the refresh pass. -/
theorem refresh_publish_order_counterexample :
    (refreshMcpTools (fun n => if n = "A" then Except.ok ["a2"] else Except.ok ["b2"])
        [{ name := "B", enabled := some true }, { name := "A", enabled := some true }]
        [("A", ["a1"]), ("B", ["b1"])] []).published ≠
      mergedInIterationOrder (fun n => if n = "A" then Except.ok ["a2"] else Except.ok ["b2"])
        [{ name := "B", enabled := some true }, { name := "A", enabled := some true }]
        [("A", ["a1"]), ("B", ["b1"])] [] := by
  decide

theorem lookup_eq_none_of_not_mem_keys {α : Type} (cache : List (String × List α))
    (k : String) (h : k ∉ cache.map Prod.fst) : List.lookup k cache = none := by
  induction cache with
  | nil => rfl
  | cons p rest ih =>
    obtain ⟨k2, v2⟩ := p
    simp only [List.map_cons, List.mem_cons] at h
    push_neg at h
    have hb : (k == k2) = false := by simpa using h.1
    simp [List.lookup, hb, ih h.2]

theorem mapSet_present {α : Type} (cache : List (String × List α)) (k : String)
    (v : List α) (hnd : (cache.map Prod.fst).Nodup) (hmem : k ∈ cache.map Prod.fst) :
    mapSet cache k v = cache.map (fun p => if p.1 = k then (k, v) else p) := by
  induction cache with
  | nil => simp at hmem
  | cons p rest ih =>
    obtain ⟨k2, v2⟩ := p
    have hndrest : (rest.map Prod.fst).Nodup :=
      (List.nodup_cons.mp (by simpa using hnd)).2
    by_cases hk : k2 = k
    · subst hk
      have hknotin : k2 ∉ rest.map Prod.fst :=
        (List.nodup_cons.mp (by simpa using hnd)).1
      have hrest : rest.map (fun p => if p.1 = k2 then (k2, v) else p) = rest := by
        rw [List.map_congr_left (fun p hp => if_neg
            (fun (he : p.1 = k2) =>
              hknotin (he ▸ List.mem_map_of_mem Prod.fst hp))), List.map_id']
      simp [mapSet, hrest]
    · have hb : (k2 == k) = false := by simpa using hk
      have hmem2 : k ∈ rest.map Prod.fst := by
        rcases (by simpa using hmem : k = k2 ∨ k ∈ rest.map Prod.fst) with h | h
        · exact absurd h.symm hk
        · exact h
      have hne : k2 ≠ k := hk
      simp [mapSet, hb, ih hndrest hmem2, if_neg (fun he => hk he)]

theorem keys_map_replace {α : Type} (cache : List (String × List α)) (k : String)
    (v : List α) :
    (cache.map (fun p => if p.1 = k then (k, v) else p)).map Prod.fst =
      cache.map Prod.fst := by
  rw [List.map_map]
  apply List.map_congr_left
  intro p _
  by_cases h : p.1 = k <;> simp [h]

theorem refreshLoop_cache_insertion {α : Type} (build : String → Except String (List α)) :
    ∀ (names : List String) (cache : List (String × List α)) (conns : List String),
      names.Nodup → (cache.map Prod.fst).Nodup →
      (refreshLoop build names cache conns).2.1 = refreshCacheSpec build names cache := by
  intro names
  induction names with
  | nil =>
    intro cache conns _ _
    have hmap : cache.map (fun p => if p.1 ∈ ([] : List String)
        then refreshUpdateEntry build p else p) = cache := by
      rw [List.map_congr_left (fun p _ => if_neg (List.not_mem_nil p.1)), List.map_id']
    simp [refreshLoop, refreshCacheSpec, refreshNewEntries, hmap]
  | cons name rest ih =>
    intro cache conns hnd hcnd
    have hnotmem : name ∉ rest := (List.nodup_cons.mp hnd).1
    have hndrest : rest.Nodup := (List.nodup_cons.mp hnd).2
    cases hbuild : build name with
    | error msg =>
      have hrec := ih cache (conns.filter (fun c => ¬(c == name))) hndrest hcnd
      have hmap : cache.map (fun p => if p.1 ∈ rest then refreshUpdateEntry build p else p) =
          cache.map (fun p => if p.1 ∈ name :: rest then refreshUpdateEntry build p else p) := by
        apply List.map_congr_left
        intro p _
        by_cases hpn : p.1 = name
        · have hupd : refreshUpdateEntry build p = p := by
            simp [refreshUpdateEntry, hpn, hbuild]
          simp [hpn, hnotmem, hupd, List.mem_cons]
        · simp [List.mem_cons, hpn]
      have hnew : refreshNewEntries build (name :: rest) cache =
          refreshNewEntries build rest cache := by
        unfold refreshNewEntries
        by_cases hmem : name ∈ cache.map Prod.fst
        · simp [List.filter_cons, hmem]
        · simp [List.filter_cons, hmem, List.filterMap_cons, hbuild]
      simp only [refreshLoop, hbuild, hrec, refreshCacheSpec]
      rw [hmap, hnew]
    | ok tools =>
      by_cases hmem : name ∈ cache.map Prod.fst
      · have hset := mapSet_present cache name tools hcnd hmem
        have hkeys : (mapSet cache name tools).map Prod.fst = cache.map Prod.fst := by
          rw [hset, keys_map_replace]
        have hnd2 : ((mapSet cache name tools).map Prod.fst).Nodup := by
          rw [hkeys]; exact hcnd
        have hrec := ih (mapSet cache name tools) (connAdd conns name) hndrest hnd2
        have hmap : (mapSet cache name tools).map
            (fun p => if p.1 ∈ rest then refreshUpdateEntry build p else p) =
            cache.map (fun p => if p.1 ∈ name :: rest then refreshUpdateEntry build p else p) := by
          rw [hset, List.map_map]
          apply List.map_congr_left
          intro p _
          by_cases hpn : p.1 = name
          · simp [Function.comp, hpn, hnotmem, refreshUpdateEntry, hbuild, List.mem_cons]
          · simp [Function.comp, hpn, List.mem_cons]
        have hnew : refreshNewEntries build rest (mapSet cache name tools) =
            refreshNewEntries build (name :: rest) cache := by
          unfold refreshNewEntries
          rw [hkeys]
          simp [List.filter_cons, hmem]
        simp only [refreshLoop, hbuild, hrec, refreshCacheSpec]
        rw [hmap, hnew]
      · have hlookup : List.lookup name cache = none :=
          lookup_eq_none_of_not_mem_keys cache name hmem
        have hset := mapSet_append_of_lookup_none cache name tools hlookup
        have hnd2 : ((mapSet cache name tools).map Prod.fst).Nodup := by
          rw [hset]
          simp only [List.map_append, List.map_cons, List.map_nil]
          rw [List.nodup_append]
          refine ⟨hcnd, List.nodup_singleton name, ?_⟩
          intro a ha hb
          rw [List.mem_singleton.mp hb] at ha
          exact hmem ha
        have hrec := ih (mapSet cache name tools) (connAdd conns name) hndrest hnd2
        have hmap : (mapSet cache name tools).map
            (fun p => if p.1 ∈ rest then refreshUpdateEntry build p else p) =
            cache.map (fun p => if p.1 ∈ name :: rest then refreshUpdateEntry build p else p) ++
            [(name, tools)] := by
          rw [hset, List.map_append]
          have hone : ([(name, tools)] : List (String × List α)).map
              (fun p => if p.1 ∈ rest then refreshUpdateEntry build p else p) =
              [(name, tools)] := by
            simp [hnotmem]
          rw [hone]
          congr 1
          apply List.map_congr_left
          intro p hp
          have hpn : p.1 ≠ name :=
            fun he => hmem (he ▸ List.mem_map_of_mem Prod.fst hp)
          simp [List.mem_cons, hpn]
        have hnew : refreshNewEntries build rest (mapSet cache name tools) =
            refreshNewEntries build rest cache := by
          unfold refreshNewEntries
          rw [hset]
          congr 1
          apply List.filter_congr
          intro n hn
          have hne : n ≠ name := fun he => hnotmem (he ▸ hn)
          by_cases hk : n ∈ cache.map Prod.fst
          · have c1 : (cache.map Prod.fst).contains n = true := by simpa using hk
            have c2 : ((cache ++ [(name, tools)]).map Prod.fst).contains n = true := by
              simp only [List.map_append, List.map_cons, List.map_nil]
              simpa using List.mem_append_left [name] hk
            rw [c1, c2]
          · have c1 : (cache.map Prod.fst).contains n = false := by simpa using hk
            have hnot2 : n ∉ cache.map Prod.fst ++ [name] := by
              intro hcon
              rcases List.mem_append.mp hcon with h | h
              · exact hk h
              · exact hne (List.mem_singleton.mp h)
            have c2 : ((cache ++ [(name, tools)]).map Prod.fst).contains n = false := by
              simp only [List.map_append, List.map_cons, List.map_nil]
              simpa using hnot2
            rw [c1, c2]
        have hcons : refreshNewEntries build (name :: rest) cache =
            (name, tools) :: refreshNewEntries build rest cache := by
          unfold refreshNewEntries
          simp [List.filter_cons, hmem, List.filterMap_cons, hbuild]
        simp only [refreshLoop, hbuild, hrec, refreshCacheSpec]
        rw [hmap, hnew, hcons, List.append_assoc, List.singleton_append]

/-- Claim C5 (amended): after every refresh pass — starting from any pre-pass
cache — the published merged tool set equals the concatenation of the cached
catalogs in cache insertion order and the returned totalTools equals its
length, where the final cache keeps every still-enabled previously cached
server at its original position (its value replaced by the newly built
catalog exactly when its build succeeded, untouched otherwise) and appends
the newly cached successful servers in iteration order; from an empty cache
this coincides with the server-iteration order restricted to servers whose
build succeeded. -/
theorem refresh_publish_amended {α : Type} (build : String → Except String (List α))
    (configs : List ServerCfg) (cache0 : List (String × List α)) (conns0 : List String)
    (hnd : (refreshActiveNames configs).Nodup)
    (hcnd : (cache0.map Prod.fst).Nodup) :
    (refreshMcpTools build configs cache0 conns0).published =
      ((refreshMcpTools build configs cache0 conns0).cache.map Prod.snd).flatten ∧
    (refreshMcpTools build configs cache0 conns0).totalTools =
      (refreshMcpTools build configs cache0 conns0).published.length ∧
    (refreshMcpTools build configs cache0 conns0).cache =
      refreshCacheSpec build (refreshActiveNames configs)
        (cache0.filter (fun p => (refreshActiveNames configs).contains p.1)) ∧
    (cache0 = [] →
      (refreshMcpTools build configs cache0 conns0).published =
        ((refreshActiveNames configs).filterMap (fun n => match build n with
          | Except.ok ts => some ts
          | Except.error _ => none)).flatten) := by
  refine ⟨rfl, rfl, ?_, fun hc0 => ?_⟩
  · have hnd2 : ((cache0.filter
        (fun p => (refreshActiveNames configs).contains p.1)).map Prod.fst).Nodup :=
      List.Nodup.sublist (List.Sublist.map Prod.fst (List.filter_sublist cache0)) hcnd
    exact refreshLoop_cache_insertion build (refreshActiveNames configs)
      (cache0.filter (fun p => (refreshActiveNames configs).contains p.1)) conns0 hnd hnd2
  · subst hc0
    have hcache : (refreshMcpTools build configs [] conns0).cache =
        (refreshActiveNames configs).filterMap (fun n => match build n with
          | Except.ok ts => some (n, ts)
          | Except.error _ => none) := by
      have := refreshLoop_cache_append build (refreshActiveNames configs) [] conns0 hnd
        (fun n _ => rfl)
      simpa [refreshMcpTools] using this
    have hpub : (refreshMcpTools build configs [] conns0).published =
        ((refreshMcpTools build configs [] conns0).cache.map Prod.snd).flatten := rfl
    rw [hpub, hcache, map_snd_filterMap]

/-- Witness for the amended C5: first at the counterexample's own reordered
non-empty pre-pass cache (earlier-cached servers keep their positions), then
from an empty cache where publication follows iteration order of successes. -/
theorem refresh_publish_amended_witness :
    ((refreshMcpTools (fun n => if n = "A" then Except.ok ["a2"] else Except.ok ["b2"])
        [{ name := "B", enabled := some true }, { name := "A", enabled := some true }]
        [("A", ["a1"]), ("B", ["b1"])] []).published =
      ((refreshMcpTools (fun n => if n = "A" then Except.ok ["a2"] else Except.ok ["b2"])
        [{ name := "B", enabled := some true }, { name := "A", enabled := some true }]
        [("A", ["a1"]), ("B", ["b1"])] []).cache.map Prod.snd).flatten) ∧
    ((refreshMcpTools (fun n => if n = "A" then Except.ok ["a2"] else Except.ok ["b2"])
        [{ name := "B", enabled := some true }, { name := "A", enabled := some true }]
        [("A", ["a1"]), ("B", ["b1"])] []).totalTools =
      (refreshMcpTools (fun n => if n = "A" then Except.ok ["a2"] else Except.ok ["b2"])
        [{ name := "B", enabled := some true }, { name := "A", enabled := some true }]
        [("A", ["a1"]), ("B", ["b1"])] []).published.length) ∧
    ((refreshMcpTools (fun n => if n = "A" then Except.ok ["a2"] else Except.ok ["b2"])
        [{ name := "B", enabled := some true }, { name := "A", enabled := some true }]
        [("A", ["a1"]), ("B", ["b1"])] []).cache =
      refreshCacheSpec (fun n => if n = "A" then Except.ok ["a2"] else Except.ok ["b2"])
        (refreshActiveNames
          [{ name := "B", enabled := some true }, { name := "A", enabled := some true }])
        ([("A", ["a1"]), ("B", ["b1"])].filter (fun p =>
          (refreshActiveNames
            [{ name := "B", enabled := some true },
             { name := "A", enabled := some true }]).contains p.1))) ∧
    ((refreshMcpTools (fun n => if n = "A" then Except.ok ["x", "y"] else Except.error "down")
        [{ name := "A" }, { name := "B" }] [] []).published =
      ((refreshActiveNames [{ name := "A" }, { name := "B" }]).filterMap
        (fun n => match (fun n => if n = "A" then Except.ok ["x", "y"]
            else Except.error "down") n with
          | Except.ok ts => some ts
          | Except.error _ => none)).flatten) :=
  ⟨(refresh_publish_amended _ [{ name := "B", enabled := some true },
      { name := "A", enabled := some true }] [("A", ["a1"]), ("B", ["b1"])] []
      (by decide) (by decide)).1,
   (refresh_publish_amended _ [{ name := "B", enabled := some true },
      { name := "A", enabled := some true }] [("A", ["a1"]), ("B", ["b1"])] []
      (by decide) (by decide)).2.1,
   (refresh_publish_amended _ [{ name := "B", enabled := some true },
      { name := "A", enabled := some true }] [("A", ["a1"]), ("B", ["b1"])] []
      (by decide) (by decide)).2.2.1,
   (refresh_publish_amended _ [{ name := "A" }, { name := "B" }] [] []
      (by decide) (by decide)).2.2.2 rfl⟩

/-- Counterexample to claim C4 as stated: two distinct (server, tool) pairs
whose sanitized compositions exceed 64 characters and share the same
64-character truncated composition, yet whose truncated SHA-256 values
collide, receive the same final name — the 8-hex-character suffix cannot
separate every such pair. -/
theorem makeMcpToolName_collision_counterexample :
    ("aaaaaaaaaaaaaaaaaaaaaaaaaaaaaaaaaaaaaaaaaaaaaaaaaaaaaaaaaaalzhzz" : String) ≠
      "aaaaaaaaaaaaaaaaaaaaaaaaaaaaaaaaaaaaaaaaaaaaaaaaaaaaaaaaaaasb0zz" ∧
    64 < ("mcp_" ++ sanitizeToolPart "s" ++ "_" ++
      sanitizeToolPart "aaaaaaaaaaaaaaaaaaaaaaaaaaaaaaaaaaaaaaaaaaaaaaaaaaaaaaaaaaalzhzz").length ∧
    64 < ("mcp_" ++ sanitizeToolPart "s" ++ "_" ++
      sanitizeToolPart "aaaaaaaaaaaaaaaaaaaaaaaaaaaaaaaaaaaaaaaaaaaaaaaaaaaaaaaaaaasb0zz").length ∧
    ("mcp_" ++ sanitizeToolPart "s" ++ "_" ++
      sanitizeToolPart "aaaaaaaaaaaaaaaaaaaaaaaaaaaaaaaaaaaaaaaaaaaaaaaaaaaaaaaaaaalzhzz").data.take 64 =
      ("mcp_" ++ sanitizeToolPart "s" ++ "_" ++
        sanitizeToolPart "aaaaaaaaaaaaaaaaaaaaaaaaaaaaaaaaaaaaaaaaaaaaaaaaaaaaaaaaaaasb0zz").data.take 64 ∧
    makeMcpToolName "s" "aaaaaaaaaaaaaaaaaaaaaaaaaaaaaaaaaaaaaaaaaaaaaaaaaaaaaaaaaaalzhzz" =
      makeMcpToolName "s" "aaaaaaaaaaaaaaaaaaaaaaaaaaaaaaaaaaaaaaaaaaaaaaaaaaaaaaaaaaasb0zz" := by
  refine ⟨by decide, by decide, by decide, by decide, by decide⟩

/-- Claim C4 (amended): for two pairs whose sanitized compositions exceed 64
characters and whose truncated composed stems agree, the final names differ
exactly when the appended 8-hex-character hashes of `"<server>:<tool>"`
differ; the name on this path is always `stem ++ "_" ++ hash`. -/
theorem string_append_left_cancel (a b c : String) (h : a ++ b = a ++ c) : b = c := by
  apply String.ext
  have hd := congrArg String.data h
  rw [String.data_append, String.data_append] at hd
  exact List.append_cancel_left hd

theorem makeMcpToolName_hash_suffix :
    ∀ s1 t1 s2 t2 : String,
      ¬("mcp_" ++ sanitizeToolPart s1 ++ "_" ++ sanitizeToolPart t1).length ≤ 64 →
      ¬("mcp_" ++ sanitizeToolPart s2 ++ "_" ++ sanitizeToolPart t2).length ≤ 64 →
      mcpNameStem s1 t1 = mcpNameStem s2 t2 →
      mcpHash8 s1 t1 ≠ mcpHash8 s2 t2 →
      makeMcpToolName s1 t1 =
        mcpNameStem s1 t1 ++ "_" ++ mcpHash8 s1 t1 ∧
      makeMcpToolName s1 t1 ≠ makeMcpToolName s2 t2 := by
  intro s1 t1 s2 t2 h1 h2 hstem hhash
  refine ⟨makeMcpToolName_long s1 t1 h1, ?_⟩
  rw [makeMcpToolName_long s1 t1 h1, makeMcpToolName_long s2 t2 h2, hstem]
  intro heq
  exact hhash (string_append_left_cancel (mcpNameStem s2 t2 ++ "_") _ _ heq)

/-- Witness for the amended C4: two long tool names sharing the same
truncated stem whose hashes differ, yielding different final names. -/
theorem makeMcpToolName_hash_suffix_witness :
    makeMcpToolName "s" "aaaaaaaaaaaaaaaaaaaaaaaaaaaaaaaaaaaaaaaaaaaaaaaaaaaaaaaaaa000000" =
      mcpNameStem "s" "aaaaaaaaaaaaaaaaaaaaaaaaaaaaaaaaaaaaaaaaaaaaaaaaaaaaaaaaaa000000" ++ "_" ++
        mcpHash8 "s" "aaaaaaaaaaaaaaaaaaaaaaaaaaaaaaaaaaaaaaaaaaaaaaaaaaaaaaaaaa000000" ∧
    makeMcpToolName "s" "aaaaaaaaaaaaaaaaaaaaaaaaaaaaaaaaaaaaaaaaaaaaaaaaaaaaaaaaaa000000" ≠
      makeMcpToolName "s" "aaaaaaaaaaaaaaaaaaaaaaaaaaaaaaaaaaaaaaaaaaaaaaaaaaaaaaaaaa000001" :=
  makeMcpToolName_hash_suffix "s" "aaaaaaaaaaaaaaaaaaaaaaaaaaaaaaaaaaaaaaaaaaaaaaaaaaaaaaaaaa000000"
    "s" "aaaaaaaaaaaaaaaaaaaaaaaaaaaaaaaaaaaaaaaaaaaaaaaaaaaaaaaaaa000001"
    (by decide) (by decide) (by decide) (by decide)
